import Mathlib

/-!
Verification development for the empitrio terminal MP3 player
(`src/player.rs`, `src/main.rs`, `src/ui.rs`).

The playback core is shallowly embedded:

* the process-wide `CURRENT_SINK` slot and the rodio sinks it guards become a
  `PState` (the slot plus the status of every sink allocated so far);
* `play_inner` becomes a sequence of atomic actions (one per acquisition of the
  `CURRENT_SINK` mutex, plus the lock-free allocation step), together with a
  scheduler so that interleavings of concurrent `play` calls can be examined;
* the progress-monitor thread becomes a recursive function over the trace of
  clock/pause observations it makes each iteration;
* the UI loop's auto-advance logic and `App` state become pure step functions
  driven by per-tick inputs.

Durations and instants are in whole nanoseconds (`Nat`), matching
`std::time::{Instant, Duration}`; `Duration::as_secs` is division by 10^9.
-/

namespace Empitrio

/-! Playback slot (player.rs, `CURRENT_SINK`)

A rodio `Sink` is modelled by its playback status.  `stop` is irreversible;
`pause`/`play` toggle between the other two states.  Sinks are identified by
their allocation index into `PState.sinks`. -/

inductive SinkStatus where
  | playing
  | paused
  | stopped
deriving DecidableEq

/-- The process-wide player state: the contents of the `CURRENT_SINK` slot
(`None` or the id of the installed sink) and every sink allocated so far,
indexed by allocation order. -/
structure PState where
  slot : Option Nat
  sinks : List SinkStatus
deriving DecidableEq

/-- The state at process start: empty slot, no sinks allocated. -/
def PState.init : PState := ⟨none, []⟩

/-- A sink is non-stopped when it is playing or paused (audible or resumable). -/
def sinkLive (st : SinkStatus) : Bool :=
  match st with
  | .playing => true
  | .paused => true
  | .stopped => false

/-- Number of non-stopped sinks in the state. -/
def countLive (s : PState) : Nat :=
  (s.sinks.filter sinkLive).length

/-- `player.rs` lines 64-66: one `CURRENT_SINK` lock acquisition that `take`s
the old occupant (leaving `None`) and calls `stop()` on it. -/
def evict (s : PState) : PState :=
  match s.slot with
  | none => s
  | some id => ⟨none, s.sinks.set id .stopped⟩

/-- `player.rs` lines 75-78: `Sink::try_new` followed by `append`, performed
without holding the slot lock; the fresh sink starts playing.  Returns the new
state and the id of the new sink. -/
def allocSink (s : PState) : PState × Nat :=
  (⟨s.slot, s.sinks ++ [SinkStatus.playing]⟩, s.sinks.length)

/-- `player.rs` line 81: the second `CURRENT_SINK` lock acquisition, which
overwrites the slot with the new sink (without stopping any previous
occupant that might have appeared in between). -/
def install (id : Nat) (s : PState) : PState :=
  ⟨some id, s.sinks⟩

/-- `player.rs` lines 30-39 (`toggle_pause`): under the lock, if a sink is
installed, resume it when paused and pause it otherwise; do nothing when the
slot is empty. -/
def toggle_pause (s : PState) : PState :=
  match s.slot with
  | none => s
  | some id =>
      match s.sinks.get? id with
      | none => s
      | some st =>
          if st = .paused then ⟨s.slot, s.sinks.set id .playing⟩
          else ⟨s.slot, s.sinks.set id .paused⟩

/-- `player.rs` lines 42-45 (`is_paused`): `true` iff a sink is installed and
it is paused; `false` for an empty slot (`unwrap_or(false)`). -/
def is_paused (s : PState) : Bool :=
  match s.slot with
  | none => false
  | some id =>
      match s.sinks.get? id with
      | none => false
      | some st => st = .paused

/-! play_inner / play_file (player.rs lines 50-81)

`play_inner` runs on its own spawned thread.  Its fallible middle section
(open, decode, obtain output device, create sink) is driven by an environment
recording which of those external operations succeed. -/

inductive PlayErr where
  | openErr
  | decodeErr
  | deviceErr
  | sinkErr
deriving DecidableEq

/-- Environment for one `play_inner` run: whether `File::open`,
`Decoder::new`, `OutputStream::try_default` and `Sink::try_new` succeed,
and the decoded stream's total duration in seconds (`0` when unknown). -/
structure PlayEnv where
  openOk : Bool
  decodeOk : Bool
  deviceOk : Bool
  sinkOk : Bool
  totalSecs : Nat

/-- `play_inner` (state effects only), run to completion without interleaving:
evict the old sink, then attempt open / decode / output-device / sink
creation in order — any failure returns the error with no further state
change — then allocate the playing sink and install it. -/
def play_inner (env : PlayEnv) (s : PState) : PState × Option PlayErr :=
  let s1 := evict s
  if env.openOk = false then (s1, some .openErr)
  else if env.decodeOk = false then (s1, some .decodeErr)
  else if env.deviceOk = false then (s1, some .deviceErr)
  else if env.sinkOk = false then (s1, some .sinkErr)
  else
    let r := allocSink s1
    (install r.2 r.1, none)

/-- Outcome of one `play_file` call as seen by its caller and by stderr. -/
structure PlayFileOutcome where
  state : PState
  stderrLog : List PlayErr
  callerResult : Except String Unit

/-- `play_file` (player.rs lines 50-60): spawns `play_inner` on a background
thread, printing any error to stderr there, and returns `Ok(())` to the
caller unconditionally.  Modelled with the background thread run to
completion. -/
def play_file (env : PlayEnv) (s : PState) : PlayFileOutcome :=
  let r := play_inner env s
  { state := r.1
    stderrLog := r.2.toList
    callerResult := .ok () }

/-! Interleaved execution of several play_inner threads (for claim C1)

Each `play_inner` thread performs, in order: the evict critical section, the
lock-free allocation, and the install critical section.  A thread's program
counter records which atomic action it will perform next. -/

inductive TPC where
  | tEvict
  | tAlloc
  | tInstall (id : Nat)
  | tDone
deriving DecidableEq

/-- One atomic step of a `play_inner` thread (successful path). -/
def tStep (pc : TPC) (s : PState) : TPC × PState :=
  match pc with
  | .tEvict => (.tAlloc, evict s)
  | .tAlloc =>
      let r := allocSink s
      (.tInstall r.2, r.1)
  | .tInstall id => (.tDone, install id s)
  | .tDone => (.tDone, s)

/-- A configuration: the program counter of every `play_inner` thread plus the
shared player state. -/
structure Config where
  pcs : List TPC
  st : PState
deriving DecidableEq

/-- Run the thread whose index is `i` for one atomic step. -/
def schedStep (c : Config) (i : Nat) : Config :=
  match c.pcs.get? i with
  | none => c
  | some pc =>
      let r := tStep pc c.st
      ⟨c.pcs.set i r.1, r.2⟩

/-- Run a schedule (a list of thread indices, each naming the thread that
performs the next atomic step). -/
def runSched (c : Config) (sched : List Nat) : Config :=
  sched.foldl schedStep c

/-! Serialized play sequences (for claim C1's amended statement) -/

/-- State after `n` successful `play_inner` calls run to completion one after
another, starting from the initial empty state. -/
def serialPlays : Nat → PState
  | 0 => PState.init
  | n + 1 =>
      let s1 := evict (serialPlays n)
      let r := allocSink s1
      install r.2 r.1

/-- The three states a single serialized `play_inner` call steps through
(after evict, after alloc, after install), starting from `s`. -/
def playStates (s : PState) : List PState :=
  let s1 := evict s
  let r := allocSink s1
  [s1, r.1, install r.2 r.1]

/-- Every state visited during `n` serialized `play_inner` calls (including
the initial state). -/
def serialTrace : Nat → List PState
  | 0 => [PState.init]
  | n + 1 => serialTrace n ++ playStates (serialPlays n)

/-! Progress monitor (player.rs lines 90-116)

The monitor thread loops while the sink is non-empty.  Each iteration it reads
the clock and the sink's paused flag; the trace of those observations is the
list `obs` (one entry per iteration in which the sink was seen non-empty; the
loop exits when the list is exhausted, i.e. when `empty()` first returns
true).  `Duration::as_secs` floors to whole seconds. -/

def nsPerSec : Nat := 1000000000

/-- One iteration's observations: the value of `Instant::now()` and the
sink's `is_paused()` result. -/
structure MonObs where
  now : Nat
  paused : Bool
deriving DecidableEq

/-- The monitor loop's mutable locals: `pause_duration` and `last_check`. -/
structure MonState where
  pause_duration : Nat
  last_check : Nat
deriving DecidableEq

/-- One iteration of the monitor loop body (player.rs lines 95-111): add the
interval since `last_check` to `pause_duration` when paused, compute the
elapsed wall time minus paused time in floored whole seconds
(`saturating_sub` is truncated `Nat` subtraction), clamp it to the total
duration when that is known, and emit the sample. -/
def monStep (start total : Nat) (st : MonState) (ob : MonObs) :
    MonState × (Nat × Nat) :=
  let pd := if ob.paused then st.pause_duration + (ob.now - st.last_check)
            else st.pause_duration
  let elapsed := (ob.now - start - pd) / nsPerSec
  let clamped := if 0 < total ∧ total < elapsed then total else elapsed
  (⟨pd, ob.now⟩, (clamped, total))

/-- The samples sent by the `while !empty()` loop alone (player.rs 94-113). -/
def monLoop (start total : Nat) (st : MonState) : List MonObs → List (Nat × Nat)
  | [] => []
  | ob :: rest =>
      let r := monStep start total st ob
      r.2 :: monLoop start total r.1 rest

/-- All samples sent by the monitor thread (player.rs 90-116): the loop's
samples followed by the final send after the loop exits because the sink
became empty. -/
def monitorRun (start total : Nat) (st : MonState) : List MonObs → List (Nat × Nat)
  | [] => [(total, total)]
  | ob :: rest =>
      let r := monStep start total st ob
      r.2 :: monitorRun start total r.1 rest

/-- Accumulated paused nanoseconds over a trace: the sum, over iterations
that observed the sink paused, of the interval since the previous iteration
(`t0` is the previous iteration's clock reading, initially `last_check`). -/
def pausedNs (t0 : Nat) : List MonObs → Nat
  | [] => 0
  | ob :: rest => (if ob.paused then ob.now - t0 else 0) + pausedNs ob.now rest

/-! App state (main.rs) -/

/-- The status-bar messages `App` can display, one constructor per `format!`
site in main.rs. -/
inductive StatusMsg where
  | pressEnter
  | noFiles
  | movedUp (dir : List String)
  | alreadyAtRoot
  | enteredFolder (dir : List String)
  | folderNotFound (name : String)
  | nowPlaying (name : String)
  | pausedBanner
  | cleared
  | ioError
deriving DecidableEq

/-- The `App` struct (main.rs lines 34-44).  Directories are represented by
their component lists (so `parent()` exists iff the list is nonempty and is
`dropLast`).  `perc_played` is Rust `f32`; its arithmetic is modelled exactly
over `ℚ`.  The progress receiver is not a field here: the drained sample
batch is an input to `poll_progress`. -/
structure App where
  files : List String
  current_dir : List String
  selected : Nat
  status : StatusMsg
  current_time : Nat
  total_time : Nat
  perc_played : ℚ
  songs_played : Nat

/-- `App::new_at_dir` (main.rs lines 54-103).  Directory enumeration,
filtering and sorting (lines 63-88) are external I/O over the real file
system; their result — the sorted folder/mp3 name list — enters as the
parameter `listed`, and the `"..."` entry is prepended exactly when the
directory has a parent (lines 57-59).  The struct initializer of lines
92-102 is translated literally. -/
def new_at_dir (dir : List String) (listed : List String) : App :=
  { files := (if dir ≠ [] then ["..."] else []) ++ listed
    current_dir := dir
    selected := 0
    status := .pressEnter
    current_time := 0
    total_time := 0
    perc_played := 0
    songs_played := 0 }

/-- `App::next` (main.rs lines 105-109). -/
def App.next (a : App) : App :=
  if a.files = [] then a
  else { a with selected := (a.selected + 1) % a.files.length }

/-- `App::previous` (main.rs lines 111-119). -/
def App.previous (a : App) : App :=
  if a.files = [] then a
  else if a.selected = 0 then { a with selected := a.files.length - 1 }
  else { a with selected := a.selected - 1 }

/-- The file-system queries `open_selected` performs (`is_dir`, and
`fs::read_dir` inside `App::new_at_dir`; `none` models an `io::Error`). -/
structure FsEnv where
  listDir : List String → Option (List String)
  isDir : List String → Bool

/-- `App::open_selected` (main.rs lines 122-158).  Returns the resulting
state and whether an `io::Error` was propagated by `?` (in which case the
mutations performed before the failing call persist, as they do on
`&mut self`).  The indexing `self.files[self.selected]` (which would panic
out of bounds; the app keeps `selected` in range) is modelled with a
default.  The `play_file` result is discarded (`let _ =`), matching line
154. -/
def open_selected (env : FsEnv) (a : App) : App × Bool :=
  if a.files = [] then ({ a with status := .noFiles }, false)
  else
    let selection := a.files.getD a.selected ""
    if selection = "..." then
      if a.current_dir ≠ [] then
        let parent := a.current_dir.dropLast
        match env.listDir parent with
        | none => ({ a with current_dir := parent }, true)
        | some listed =>
            ({ new_at_dir parent listed with status := .movedUp parent }, false)
      else ({ a with status := .alreadyAtRoot }, false)
    else if selection.endsWith "/" then
      let folder_name := selection.dropRightWhile (fun c => c = '/')
      let new_path := a.current_dir ++ [folder_name]
      if env.isDir new_path then
        match env.listDir new_path with
        | none => ({ a with current_dir := new_path }, true)
        | some listed =>
            ({ new_at_dir new_path listed with status := .enteredFolder new_path }, false)
      else ({ a with status := .folderNotFound folder_name }, false)
    else
      ({ a with status := .nowPlaying selection }, false)

/-- `App::select` (main.rs lines 161-165): `open_selected`, replacing the
status with the error message when it failed. -/
def select (env : FsEnv) (a : App) : App :=
  let r := open_selected env a
  if r.2 then { r.1 with status := .ioError } else r.1

/-- `App::poll_progress` (main.rs lines 171-183): drain every queued sample
in arrival order (`while let Ok(..) = rx.try_recv()`), each one overwriting
`current_time`, `total_time` and the derived `perc_played`. -/
def poll_progress (samples : List (Nat × Nat)) (a : App) : App :=
  samples.foldl
    (fun acc s =>
      { acc with
        current_time := s.1
        total_time := s.2
        perc_played := if 0 < s.2 then (s.1 : ℚ) / (s.2 : ℚ) * 100 else 0 })
    a

/-- `App::pause` (main.rs lines 185-197): toggle the player's pause state,
then set the status from the post-toggle `is_paused()`.  The player state
`p` is the `CURRENT_SINK` contents at the call. -/
def App.pause (a : App) (p : PState) : App × PState :=
  let p2 := toggle_pause p
  if is_paused p2 then ({ a with status := .pausedBanner }, p2)
  else
    match a.files.get? a.selected with
    | some filename => ({ a with status := .nowPlaying filename }, p2)
    | none => ({ a with status := .cleared }, p2)

/-- An entry is a playable mp3 iff it is neither the `"..."` parent entry nor
a folder (folder names carry a trailing `/`), per the listing format of
`App::new_at_dir`. -/
def isMp3Entry (s : String) : Bool :=
  !(s == "...") && !(s.endsWith "/")

/-- Modelled from the spec: `App::next_mp3`, called by the UI loop's
auto-advance branch (ui.rs line 51), is not present in the sources.  Per the
spec's "advance selection" operation and the auto-advance command "select
next track, then play it", it moves the selection to the next playable mp3
entry (searching forward cyclically from the current selection) and returns
whether one was found; it touches only `selected`. -/
def next_mp3 (a : App) : App × Bool :=
  let n := a.files.length
  let idxs := (List.range n).map (fun k => (a.selected + 1 + k) % n)
  match idxs.find? (fun i => isMp3Entry (a.files.getD i "")) with
  | some i => ({ a with selected := i }, true)
  | none => (a, false)

/-! UI loop auto-advance (ui.rs lines 29-58) -/

/-- 700 ms in nanoseconds (`Duration::from_millis(700)`). -/
def debounceNs : Nat := 700000000

/-- The end condition of ui.rs line 42, negated: the auto-advance timer runs
only when the total is known, elapsed has reached it, and the player is not
paused. -/
def endCond (a : App) (paused : Bool) : Bool :=
  !(a.total_time == 0 || decide (a.current_time < a.total_time) || paused)

/-- The auto-advance state machine of ui.rs lines 42-58 acting on
`song_end_instant`: reset to `None` while the end condition fails; start the
timer on the first tick it holds; once strictly more than 700 ms have
elapsed since the timer started, command an advance and reset.  Returns the
new `song_end_instant` and whether an advance was commanded this tick. -/
def ctrlStep (cond : Bool) (now : Nat) (sei : Option Nat) : Option Nat × Bool :=
  if cond = false then (none, false)
  else
    match sei with
    | none => (some now, false)
    | some t => if debounceNs < now - t then (none, true) else (some t, false)

/-- `if app.next_mp3() { app.select(&progress_tx) }` (ui.rs lines 51-53). -/
def advance_action (env : FsEnv) (a : App) : App :=
  let r := next_mp3 a
  if r.2 then select env r.1 else r.1

/-- The UI loop state across ticks: the `App` plus `song_end_instant`
(ui.rs line 35, initially `None`). -/
structure UIState where
  app : App
  song_end_instant : Option Nat

/-- Per-tick inputs: the batch of samples queued on the progress channel
since the previous tick, the player's `is_paused()` value, and
`Instant::now()` in nanoseconds. -/
structure TickIn where
  samples : List (Nat × Nat)
  paused : Bool
  now : Nat

/-- What one tick did, for stating trace properties: the end condition after
draining, the tick's clock reading, and whether an advance was commanded. -/
structure TickRec where
  cond : Bool
  now : Nat
  adv : Bool
deriving DecidableEq

/-- One iteration of the UI loop's progress/auto-advance prefix
(ui.rs lines 38-58): drain the channel, evaluate the end condition, step the
debounce state machine, and perform the advance action if commanded. -/
def uiTick (env : FsEnv) (st : UIState) (x : TickIn) : UIState × TickRec :=
  let a := poll_progress x.samples st.app
  let c := endCond a x.paused
  let r := ctrlStep c x.now st.song_end_instant
  let a2 := if r.2 then advance_action env a else a
  (⟨a2, r.1⟩, ⟨c, x.now, r.2⟩)

/-- Run the UI loop over a trace of tick inputs, collecting one record per
tick. -/
def uiRun (env : FsEnv) (st : UIState) : List TickIn → UIState × List TickRec
  | [] => (st, [])
  | x :: rest =>
      let r := uiTick env st x
      let rr := uiRun env r.1 rest
      (rr.1, r.2 :: rr.2)

/-- Default record used for positional access in trace statements. -/
def recD : TickRec := ⟨false, 0, false⟩

/-- Default tick input used for positional access. -/
def tickD : TickIn := ⟨[], false, 0⟩

/-- The record of the `i`-th UI tick when the loop starts (as in `ui_loop`)
with `song_end_instant = None` and app `a0`, and processes the inputs `xs`. -/
def tickRec (env : FsEnv) (a0 : App) (xs : List TickIn) (i : Nat) : TickRec :=
  (uiRun env ⟨a0, none⟩ xs).2.getD i recD

/-- The value of `song_end_instant` after the first `i` ticks. -/
def seiAfter (env : FsEnv) (a0 : App) (xs : List TickIn) (i : Nat) : Option Nat :=
  (uiRun env ⟨a0, none⟩ (xs.take i)).1.song_end_instant

/-! The operations that can touch the `App` state (for claim C10) -/

/-- Every operation the application performs on the `App` after construction:
draining the progress channel, list navigation, selection, pause, and the
auto-advance action. -/
inductive AppOp where
  | pollOp (samples : List (Nat × Nat))
  | nextOp
  | prevOp
  | selectOp (env : FsEnv)
  | pauseOp (p : PState)
  | advanceOp (env : FsEnv)

/-- Apply one operation to the `App` (the player-state result of `pause` and
the play commands are outside the `App`). -/
def applyOp (a : App) (op : AppOp) : App :=
  match op with
  | .pollOp samples => poll_progress samples a
  | .nextOp => a.next
  | .prevOp => a.previous
  | .selectOp env => select env a
  | .pauseOp p => (a.pause p).1
  | .advanceOp env => advance_action env a

/-- The sample predicted by the spec's formulas, for comparison with the
monitor loop: elapsed is `(now - session.start) - accumulated_paused_duration`
in floored whole seconds, clamped to the total when the total is known. -/
def specElapsedSample (start total pd now : Nat) : Nat × Nat :=
  let e := (now - start - pd) / nsPerSec
  (if 0 < total ∧ total < e then total else e, total)

/-! Concrete fixtures used to instantiate theorems with hypotheses -/

/-- A file-system environment whose queries all fail / answer `false`. -/
def fsEmpty : FsEnv := ⟨fun _ => none, fun _ => false⟩

/-- A root-directory `App` listing a single mp3 file. -/
def app0W : App := new_at_dir [] ["a.mp3"]

/-- Three UI ticks: a sample showing a finished 10-second track arrives on the
first tick, and the condition keeps holding while 800 ms pass. -/
def xsW : List TickIn :=
  [⟨[(10, 10)], false, 0⟩, ⟨[], false, 400000000⟩, ⟨[], false, 800000000⟩]

/-! Helper lemmas -/

theorem evict_slot_none (s : PState) : (evict s).slot = none := by
  unfold evict
  split <;> simp_all

theorem get?_set_self {α : Type} (l : List α) (i : Nat) (x : α) (h : i < l.length) :
    (l.set i x).get? i = some x := by
  induction l generalizing i with
  | nil => simp at h
  | cons y ys ih =>
      cases i with
      | zero => rfl
      | succ i => simpa using ih i (by simpa using h)

theorem evict_stops (s : PState) (id : Nat) (hs : s.slot = some id)
    (hlt : id < s.sinks.length) : (evict s).sinks.get? id = some .stopped := by
  unfold evict
  rw [hs]
  simpa using get?_set_self s.sinks id .stopped hlt

/-! C8 -/

/-- Claim C8: with the playback slot empty, `toggle_pause` leaves the whole player
state unchanged (no sink operation happens) and `is_paused` returns
`false`. -/
theorem c8_empty_slot (s : PState) (h : s.slot = none) :
    toggle_pause s = s ∧ is_paused s = false := by
  unfold toggle_pause is_paused
  rw [h]
  exact ⟨rfl, rfl⟩

theorem c8_empty_slot_witness :
    toggle_pause PState.init = PState.init ∧ is_paused PState.init = false :=
  c8_empty_slot PState.init rfl

/-! C2 -/

/-- Claim C2: when opening, decoding, obtaining the output device, or creating the
sink fails, `play_file` still returns `Ok(())` to its caller, the background
sequence stops at the failure with no session installed (the slot is exactly
what eviction produced: empty), the previously evicted sink stays stopped,
and the failure shows up only as a single stderr message. -/
theorem c2_failure_aborts (env : PlayEnv) (s : PState)
    (hfail : env.openOk = false ∨ env.decodeOk = false ∨
             env.deviceOk = false ∨ env.sinkOk = false) :
    (play_file env s).callerResult = Except.ok () ∧
    (play_file env s).state = evict s ∧
    (play_file env s).state.slot = none ∧
    (∀ id, s.slot = some id → id < s.sinks.length →
      (play_file env s).state.sinks.get? id = some .stopped) ∧
    ∃ e, (play_file env s).stderrLog = [e] := by
  obtain ⟨o, d, v, k, t⟩ := env
  have hstate : (play_file ⟨o, d, v, k, t⟩ s).state = evict s ∧
      ∃ e, (play_file ⟨o, d, v, k, t⟩ s).stderrLog = [e] := by
    cases o <;> cases d <;> cases v <;> cases k <;>
      simp_all [play_file, play_inner]
  refine ⟨rfl, hstate.1, ?_, ?_, hstate.2⟩
  · rw [hstate.1]
    exact evict_slot_none s
  · intro id hid hlt
    rw [hstate.1]
    exact evict_stops s id hid hlt

theorem c2_failure_aborts_witness :
    (play_file ⟨false, true, true, true, 30⟩ ⟨some 0, [.playing]⟩).callerResult
        = Except.ok () ∧
    (play_file ⟨false, true, true, true, 30⟩ ⟨some 0, [.playing]⟩).state
        = evict ⟨some 0, [.playing]⟩ ∧
    (play_file ⟨false, true, true, true, 30⟩ ⟨some 0, [.playing]⟩).state.slot = none ∧
    (∀ id, (PState.mk (some 0) [.playing]).slot = some id →
      id < (PState.mk (some 0) [.playing]).sinks.length →
      (play_file ⟨false, true, true, true, 30⟩ ⟨some 0, [.playing]⟩).state.sinks.get? id
        = some .stopped) ∧
    ∃ e, (play_file ⟨false, true, true, true, 30⟩ ⟨some 0, [.playing]⟩).stderrLog = [e] :=
  c2_failure_aborts ⟨false, true, true, true, 30⟩ ⟨some 0, [.playing]⟩ (Or.inl rfl)

/-! C3 -/

/-- Claim C3: every sample the monitor ever sends (loop samples and the final one)
satisfies: when its total is known (positive), the reported elapsed value
does not exceed it. -/
theorem c3_clamping (start total : Nat) (st : MonState) (obs : List MonObs) :
    ∀ p ∈ monitorRun start total st obs, 0 < p.2 → p.1 ≤ p.2 := by
  induction obs generalizing st with
  | nil =>
      intro p hp
      simp only [monitorRun, List.mem_singleton] at hp
      subst hp
      intro _
      exact le_refl _
  | cons ob rest ih =>
      intro p hp
      simp only [monitorRun, List.mem_cons] at hp
      rcases hp with h | h
      · subst h
        simp only [monStep]
        intro ht
        split_ifs <;> omega
      · exact ih _ p h

theorem c3_clamping_witness : ((5, 5) : Nat × Nat).1 ≤ ((5, 5) : Nat × Nat).2 :=
  c3_clamping 0 5 ⟨0, 0⟩ [] (5, 5) (by simp [monitorRun]) (by decide)

/-! C4 -/

/-- Claim C4: the monitor thread's full output is the loop's samples followed by
exactly one final `(total, total)` sample, emitted when the loop exits on the
sink reporting empty. -/
theorem c4_final_sample (start total : Nat) (st : MonState) (obs : List MonObs) :
    monitorRun start total st obs = monLoop start total st obs ++ [(total, total)] := by
  induction obs generalizing st with
  | nil => rfl
  | cons ob rest ih => simp [monitorRun, monLoop, ih]

/-! C9 -/

/-- Claim C9: the `i`-th sample emitted by the monitor loop is exactly the spec's
formula — the accumulated paused duration is the initial counter plus the sum
of the inter-iteration intervals observed while paused, and the (pre-clamp)
elapsed value is wall time since `start` minus that counter, in floored whole
seconds. -/
theorem c9_pause_accounting (start total pd0 t0 : Nat) (obs : List MonObs) (i : Nat)
    (hi : i < obs.length) :
    (monLoop start total ⟨pd0, t0⟩ obs).get? i =
      some (specElapsedSample start total
        (pd0 + pausedNs t0 (obs.take (i + 1))) (obs.getD i ⟨0, false⟩).now) := by
  induction obs generalizing pd0 t0 i with
  | nil => simp at hi
  | cons ob rest ih =>
      cases i with
      | zero =>
          cases hp : ob.paused <;>
            simp [monLoop, monStep, specElapsedSample, pausedNs, hp]
      | succ i =>
          have hi' : i < rest.length := by simpa using hi
          have hstep : (monLoop start total ⟨pd0, t0⟩ (ob :: rest)).get? (i + 1) =
              (monLoop start total
                ⟨if ob.paused = true then pd0 + (ob.now - t0) else pd0, ob.now⟩
                rest).get? i := rfl
          rw [hstep, ih _ _ i hi', List.take_succ_cons, List.getD_cons_succ]
          have hpd : (if ob.paused = true then pd0 + (ob.now - t0) else pd0) +
              pausedNs ob.now (rest.take (i + 1)) =
              pd0 + pausedNs t0 (ob :: rest.take (i + 1)) := by
            simp only [pausedNs]
            cases ob.paused <;> simp [Nat.add_assoc]
          rw [hpd]

theorem c9_pause_accounting_witness :
    (monLoop 0 100 ⟨0, 0⟩ [⟨2000000000, false⟩, ⟨3000000000, true⟩]).get? 1 =
      some (2, 100) :=
  (c9_pause_accounting 0 100 0 0 [⟨2000000000, false⟩, ⟨3000000000, true⟩] 1
    (by decide)).trans (by decide)

/-! C7 -/

/-- Claim C7: draining the channel leaves `current_time`/`total_time` at the last
queued sample's components (unchanged when nothing was queued) and
`perc_played` at `elapsed / total * 100` for a known total and `0` for an
unknown one. -/
theorem c7_poll_drains (samples pre : List (Nat × Nat)) (l : Nat × Nat) (a : App) :
    (samples = [] → poll_progress samples a = a) ∧
    (samples = pre ++ [l] →
      (poll_progress samples a).current_time = l.1 ∧
      (poll_progress samples a).total_time = l.2 ∧
      (poll_progress samples a).perc_played =
        (if 0 < l.2 then (l.1 : ℚ) / (l.2 : ℚ) * 100 else 0)) := by
  constructor
  · intro h
    subst h
    rfl
  · intro h
    subst h
    unfold poll_progress
    rw [List.foldl_append]
    simp

theorem c7_poll_drains_witness :
    (poll_progress [(3, 6), (4, 8)] app0W).current_time = 4 ∧
    (poll_progress [(3, 6), (4, 8)] app0W).total_time = 8 ∧
    (poll_progress [(3, 6), (4, 8)] app0W).perc_played =
      (if 0 < ((4, 8) : Nat × Nat).2 then
        (((4, 8) : Nat × Nat).1 : ℚ) / ((4, 8) : Nat × Nat).2 * 100 else 0) :=
  (c7_poll_drains [(3, 6), (4, 8)] [(3, 6)] (4, 8) app0W).2 rfl

/-! C1 -/

theorem set_replicate_last (n : Nat) (y z : SinkStatus) :
    (List.replicate n SinkStatus.stopped ++ [y]).set n z =
      List.replicate n SinkStatus.stopped ++ [z] := by
  induction n with
  | zero => rfl
  | succ n ih => simp [List.replicate_succ, ih]

theorem get?_replicate_last (n : Nat) (y : SinkStatus) :
    (List.replicate n SinkStatus.stopped ++ [y]).get? n = some y := by
  induction n with
  | zero => rfl
  | succ n ih => simp [List.replicate_succ, ih]

theorem filter_live_replicate (n : Nat) :
    (List.replicate n SinkStatus.stopped).filter sinkLive = [] := by
  induction n with
  | zero => rfl
  | succ n ih => simp [List.replicate_succ, List.filter, sinkLive, ih]

theorem countLive_replicate (o : Option Nat) (n : Nat) :
    countLive ⟨o, List.replicate n .stopped⟩ = 0 := by
  simp [countLive, filter_live_replicate]

theorem countLive_replicate_playing (o : Option Nat) (n : Nat) :
    countLive ⟨o, List.replicate n .stopped ++ [.playing]⟩ = 1 := by
  simp [countLive, List.filter_append, filter_live_replicate, List.filter, sinkLive]

theorem serialPlays_closed (n : Nat) :
    serialPlays (n + 1) = ⟨some n, List.replicate n .stopped ++ [.playing]⟩ := by
  induction n with
  | zero => rfl
  | succ n ih =>
      show (let s1 := evict (serialPlays (n + 1))
            let r := allocSink s1
            install r.2 r.1) = _
      rw [ih]
      simp [evict, allocSink, install, set_replicate_last, List.replicate_succ',
        List.length_append, List.length_replicate]

theorem playStates_live (n : Nat) :
    ∀ s ∈ playStates (serialPlays n), countLive s ≤ 1 := by
  cases n with
  | zero =>
      intro s hs
      have he : playStates (serialPlays 0) =
          [⟨none, []⟩, ⟨none, [.playing]⟩, ⟨some 0, [.playing]⟩] := rfl
      rw [he] at hs
      simp only [List.mem_cons, List.not_mem_nil, or_false] at hs
      rcases hs with h | h | h <;> (subst h; decide)
  | succ n =>
      intro s hs
      have he : playStates (serialPlays (n + 1)) =
          [⟨none, List.replicate (n + 1) .stopped⟩,
           ⟨none, List.replicate (n + 1) .stopped ++ [.playing]⟩,
           ⟨some (n + 1), List.replicate (n + 1) .stopped ++ [.playing]⟩] := by
        rw [serialPlays_closed n]
        simp [playStates, evict, allocSink, install, set_replicate_last,
          List.replicate_succ']
      rw [he] at hs
      simp only [List.mem_cons, List.not_mem_nil, or_false] at hs
      rcases hs with h | h | h
      · rw [h, countLive_replicate]
        omega
      · rw [h]
        rw [countLive_replicate_playing]
      · rw [h]
        rw [countLive_replicate_playing]

/-- Claim C1, counterexample: eviction and installation are not one critical
section.  With two `play_inner` threads (from `play(p1)` then `play(p2)`),
the schedule in which both evict before either installs ends with two
simultaneously playing (non-stopped) sinks; and after thread 0 has fully
installed its sink, thread 1's eviction alone leaves a state any other task
can observe in which the old sink is stopped and no new one is installed. -/
theorem c1_not_atomic_counterexample :
    (runSched ⟨[.tEvict, .tEvict], PState.init⟩ [0, 1, 0, 0, 1, 1]).st =
        ⟨some 1, [.playing, .playing]⟩ ∧
    countLive ⟨some 1, [.playing, .playing]⟩ = 2 ∧
    (runSched ⟨[.tEvict, .tEvict], PState.init⟩ [0, 0, 0, 1]).st =
        ⟨none, [.stopped]⟩ := by
  decide

/-- Claim C1, amended: when the `play_inner` executions are serialized (each runs to
completion before the next begins), every state reached has at most one
non-stopped sink, and after `play(p1) … play(pn)` the slot holds `pn`'s
freshly playing sink, so `is_paused()` reflects only `pn`'s session. -/
theorem c1_serialized_single_flight (n : Nat) :
    (∀ s ∈ serialTrace n, countLive s ≤ 1) ∧
    (0 < n → (serialPlays n).slot = some (n - 1) ∧ is_paused (serialPlays n) = false) := by
  constructor
  · induction n with
    | zero =>
        intro s hs
        simp only [serialTrace, List.mem_singleton] at hs
        subst hs
        simp [countLive, PState.init, List.filter]
    | succ n ih =>
        intro s hs
        simp only [serialTrace, List.mem_append] at hs
        rcases hs with h | h
        · exact ih s h
        · exact playStates_live n s h
  · intro hn
    obtain ⟨m, rfl⟩ := Nat.exists_eq_add_of_lt hn
    rw [Nat.zero_add, serialPlays_closed m]
    refine ⟨by simp, ?_⟩
    simp [is_paused, get?_replicate_last]

theorem c1_serialized_single_flight_witness :
    (serialPlays 2).slot = some 1 ∧ is_paused (serialPlays 2) = false :=
  (c1_serialized_single_flight 2).2 (by decide)

/-! C6 -/

theorem poll_total_zero : ∀ (samples : List (Nat × Nat)) (a : App),
    (∀ s ∈ samples, s.2 = 0) → a.total_time = 0 →
    (poll_progress samples a).total_time = 0 := by
  intro samples
  induction samples with
  | nil =>
      intro a _ h0
      exact h0
  | cons s rest ih =>
      intro a h h0
      have hs : s.2 = 0 := h s (List.mem_cons_self s rest)
      show (poll_progress rest _).total_time = 0
      exact ih _ (fun x hx => h x (List.mem_cons_of_mem s hx)) hs

theorem c6_aux (env : FsEnv) : ∀ (xs : List TickIn) (a : App),
    a.total_time = 0 → (∀ x ∈ xs, ∀ s ∈ x.samples, s.2 = 0) →
    (uiRun env ⟨a, none⟩ xs).1.song_end_instant = none ∧
    (uiRun env ⟨a, none⟩ xs).1.app.total_time = 0 ∧
    ∀ r ∈ (uiRun env ⟨a, none⟩ xs).2, r.cond = false ∧ r.adv = false := by
  intro xs
  induction xs with
  | nil =>
      intro a h0 _
      exact ⟨rfl, h0, by simp [uiRun]⟩
  | cons x rest ih =>
      intro a h0 hall
      have hx : ∀ s ∈ x.samples, s.2 = 0 := hall x (List.mem_cons_self x rest)
      have ht : (poll_progress x.samples a).total_time = 0 :=
        poll_total_zero x.samples a hx h0
      have hcond : endCond (poll_progress x.samples a) x.paused = false := by
        simp [endCond, ht]
      have hstep : uiTick env ⟨a, none⟩ x =
          (⟨poll_progress x.samples a, none⟩, ⟨false, x.now, false⟩) := by
        simp [uiTick, hcond, ctrlStep]
      have hrun : uiRun env ⟨a, none⟩ (x :: rest) =
          ((uiRun env ⟨poll_progress x.samples a, none⟩ rest).1,
            (⟨false, x.now, false⟩ : TickRec) ::
              (uiRun env ⟨poll_progress x.samples a, none⟩ rest).2) := by
        simp [uiRun, hstep]
      obtain ⟨i1, i2, i3⟩ := ih (poll_progress x.samples a) ht
        (fun y hy => hall y (List.mem_cons_of_mem x hy))
      rw [hrun]
      refine ⟨i1, i2, ?_⟩
      intro r hr
      rcases List.mem_cons.mp hr with h | h
      · subst h
        exact ⟨rfl, rfl⟩
      · exact i3 r h

/-- Claim C6: when every drained sample reports an unknown total (`0`), the
auto-advance controller never starts the end timer (`song_end_instant` is
`None` after every tick), the end condition never holds, and no advance is
ever commanded. -/
theorem c6_unknown_duration (env : FsEnv) (a : App) (xs : List TickIn)
    (h0 : a.total_time = 0) (hall : ∀ x ∈ xs, ∀ s ∈ x.samples, s.2 = 0) :
    (∀ i, (uiRun env ⟨a, none⟩ (xs.take i)).1.song_end_instant = none) ∧
    (∀ r ∈ (uiRun env ⟨a, none⟩ xs).2, r.cond = false ∧ r.adv = false) := by
  constructor
  · intro i
    exact (c6_aux env (xs.take i) a h0
      (fun y hy => hall y (List.take_subset i xs hy))).1
  · exact (c6_aux env xs a h0 hall).2.2

theorem c6_unknown_duration_witness :
    (uiRun fsEmpty ⟨app0W, none⟩
      (List.take 1 ([⟨[(5, 0)], false, 1000000000⟩] : List TickIn))).1.song_end_instant = none :=
  (c6_unknown_duration fsEmpty app0W [⟨[(5, 0)], false, 1000000000⟩] rfl
    (by decide)).1 1

/-! C5: controller-step lemmas and the debounce invariant -/

theorem ctrlStep_false (n : Nat) (s : Option Nat) : ctrlStep false n s = (none, false) := rfl

theorem ctrlStep_start (n : Nat) : ctrlStep true n none = (some n, false) := by
  simp [ctrlStep]

theorem ctrlStep_keep (n t : Nat) (hd : ¬debounceNs < n - t) :
    ctrlStep true n (some t) = (some t, false) := by
  simp [ctrlStep, hd]

theorem ctrlStep_fire (n t : Nat) (hd : debounceNs < n - t) :
    ctrlStep true n (some t) = (none, true) := by
  simp [ctrlStep, hd]

theorem ctrlStep_none_inv (c : Bool) (n : Nat) (s : Option Nat)
    (h : (ctrlStep c n s).1 = none) : c = false ∨ (ctrlStep c n s).2 = true := by
  cases c with
  | false => exact Or.inl rfl
  | true =>
      right
      cases s with
      | none => simp [ctrlStep] at h
      | some t =>
          by_cases hd : debounceNs < n - t
          · simp [ctrlStep, hd]
          · simp [ctrlStep, hd] at h

theorem ctrlStep_fire_inv (c : Bool) (n : Nat) (s : Option Nat)
    (h : (ctrlStep c n s).2 = true) :
    c = true ∧ ∃ t, s = some t ∧ debounceNs < n - t ∧ (ctrlStep c n s).1 = none := by
  cases c with
  | false => simp [ctrlStep] at h
  | true =>
      cases s with
      | none => simp [ctrlStep] at h
      | some t =>
          by_cases hd : debounceNs < n - t
          · exact ⟨rfl, t, rfl, hd, by simp [ctrlStep, hd]⟩
          · simp [ctrlStep, hd] at h

theorem uiStep_take (env : FsEnv) : ∀ (xs : List TickIn) (st : UIState) (i : Nat),
    i < xs.length →
    (uiRun env st (xs.take (i + 1))).1 =
      (uiTick env (uiRun env st (xs.take i)).1 (xs.getD i tickD)).1 ∧
    (uiRun env st xs).2.getD i recD =
      (uiTick env (uiRun env st (xs.take i)).1 (xs.getD i tickD)).2 := by
  intro xs
  induction xs with
  | nil =>
      intro st i hi
      simp at hi
  | cons x rest ih =>
      intro st i hi
      cases i with
      | zero => exact ⟨rfl, rfl⟩
      | succ i =>
          have hi' : i < rest.length := by simpa using hi
          have h := ih (uiTick env st x).1 i hi'
          simp only [List.take_succ_cons, List.getD_cons_succ]
          constructor
          · show (uiRun env (uiTick env st x).1 (rest.take (i + 1))).1 = _
            rw [h.1]
            rfl
          · show ((uiTick env st x).2 ::
                (uiRun env (uiTick env st x).1 rest).2).getD (i + 1) recD = _
            rw [List.getD_cons_succ, h.2]
            rfl

theorem sei_step (env : FsEnv) (a0 : App) (xs : List TickIn) (i : Nat)
    (hi : i < xs.length) :
    seiAfter env a0 xs (i + 1) =
      (ctrlStep (tickRec env a0 xs i).cond (tickRec env a0 xs i).now
        (seiAfter env a0 xs i)).1 ∧
    (tickRec env a0 xs i).adv =
      (ctrlStep (tickRec env a0 xs i).cond (tickRec env a0 xs i).now
        (seiAfter env a0 xs i)).2 := by
  obtain ⟨h1, h2⟩ := uiStep_take env xs ⟨a0, none⟩ i hi
  unfold seiAfter tickRec
  rw [h1, h2]
  exact ⟨rfl, rfl⟩

theorem sei_zero (env : FsEnv) (a0 : App) (xs : List TickIn) :
    seiAfter env a0 xs 0 = none := rfl

theorem sei_inv (env : FsEnv) (a0 : App) (xs : List TickIn) :
    ∀ i, i ≤ xs.length → ∀ t, seiAfter env a0 xs i = some t →
    ∃ j, j < i ∧ (tickRec env a0 xs j).now = t ∧
      (∀ m, j ≤ m → m < i →
        (tickRec env a0 xs m).cond = true ∧ (tickRec env a0 xs m).adv = false) ∧
      (∀ m, j ≤ m → m < i → (tickRec env a0 xs m).now - t ≤ debounceNs) ∧
      (j = 0 ∨ (tickRec env a0 xs (j - 1)).cond = false ∨
        (tickRec env a0 xs (j - 1)).adv = true) := by
  intro i
  induction i with
  | zero =>
      intro _ t ht
      rw [sei_zero] at ht
      cases ht
  | succ i ih =>
      intro hle t ht
      have hi : i < xs.length := by omega
      obtain ⟨hs1, hs2⟩ := sei_step env a0 xs i hi
      rw [hs1] at ht
      cases hcnd : (tickRec env a0 xs i).cond with
      | false =>
          rw [hcnd, ctrlStep_false] at ht
          cases ht
      | true =>
          rw [hcnd] at ht
          cases hsei : seiAfter env a0 xs i with
          | none =>
              rw [hsei, ctrlStep_start] at ht
              have htn : (tickRec env a0 xs i).now = t := by
                cases ht
                rfl
              have hadv : (tickRec env a0 xs i).adv = false := by
                rw [hs2, hcnd, hsei, ctrlStep_start]
              refine ⟨i, by omega, htn, ?_, ?_, ?_⟩
              · intro m hm1 hm2
                have : m = i := by omega
                subst this
                exact ⟨hcnd, hadv⟩
              · intro m hm1 hm2
                have : m = i := by omega
                subst this
                rw [htn]
                omega
              · cases i with
                | zero => exact Or.inl rfl
                | succ k =>
                    obtain ⟨hk1, hk2⟩ := sei_step env a0 xs k (by omega)
                    rw [hsei] at hk1
                    rcases ctrlStep_none_inv _ _ _ hk1.symm with h | h
                    · exact Or.inr (Or.inl h)
                    · rw [← hk2] at h
                      exact Or.inr (Or.inr h)
          | some u =>
              rw [hsei] at ht
              by_cases hd : debounceNs < (tickRec env a0 xs i).now - u
              · rw [ctrlStep_fire _ _ hd] at ht
                cases ht
              · rw [ctrlStep_keep _ _ hd] at ht
                have hut : u = t := by
                  cases ht
                  rfl
                subst hut
                obtain ⟨j, hj1, hj2, hj3, hj4, hj5⟩ := ih (by omega) u hsei
                have hadv : (tickRec env a0 xs i).adv = false := by
                  rw [hs2, hcnd, hsei, ctrlStep_keep _ _ hd]
                refine ⟨j, by omega, hj2, ?_, ?_, hj5⟩
                · intro m hm1 hm2
                  rcases (by omega : m < i ∨ m = i) with h | h
                  · exact hj3 m hm1 h
                  · subst h
                    exact ⟨hcnd, hadv⟩
                · intro m hm1 hm2
                  rcases (by omega : m < i ∨ m = i) with h | h
                  · exact hj4 m hm1 h
                  · subst h
                    omega

theorem sei_progress (env : FsEnv) (a0 : App) (xs : List TickIn) (j : Nat)
    (hj : seiAfter env a0 xs j = none)
    (hcj : (tickRec env a0 xs j).cond = true) :
    ∀ i, j ≤ i → i ≤ xs.length →
    (∀ m, j ≤ m → m < i → (tickRec env a0 xs m).cond = true) →
    (∀ m, j ≤ m → m < i →
      (tickRec env a0 xs m).now - (tickRec env a0 xs j).now ≤ debounceNs) →
    (j < i → seiAfter env a0 xs i = some (tickRec env a0 xs j).now) ∧
    (∀ m, j ≤ m → m < i → (tickRec env a0 xs m).adv = false) := by
  intro i
  induction i with
  | zero =>
      intro hji _ _ _
      exact ⟨by omega, fun m hm1 hm2 => by omega⟩
  | succ i ih =>
      intro hji hlen hconds hgaps
      rcases (by omega : j = i + 1 ∨ j ≤ i) with hcase | hcase
      · refine ⟨by omega, fun m hm1 hm2 => by omega⟩
      · have hilen : i < xs.length := by omega
        obtain ⟨hs1, hs2⟩ := sei_step env a0 xs i hilen
        have hci : (tickRec env a0 xs i).cond = true := by
          rcases (by omega : j = i ∨ j < i) with h | h
          · rw [← h]
            exact hcj
          · exact hconds i hcase (by omega)
        obtain ⟨p1, p2⟩ := ih hcase (by omega)
          (fun m hm1 hm2 => hconds m hm1 (by omega))
          (fun m hm1 hm2 => hgaps m hm1 (by omega))
        rcases (by omega : j = i ∨ j < i) with hji' | hji'
        · subst hji'
          have : seiAfter env a0 xs (j + 1) = some (tickRec env a0 xs j).now := by
            rw [hs1, hcj, hj, ctrlStep_start]
          refine ⟨fun _ => this, ?_⟩
          intro m hm1 hm2
          have : m = j := by omega
          subst this
          rw [hs2, hcj, hj, ctrlStep_start]
        · have hseii : seiAfter env a0 xs i = some (tickRec env a0 xs j).now := p1 hji'
          have hgap : ¬debounceNs <
              (tickRec env a0 xs i).now - (tickRec env a0 xs j).now := by
            have := hgaps i hcase (by omega)
            omega
          constructor
          · intro _
            rw [hs1, hci, hseii, ctrlStep_keep _ _ hgap]
          · intro m hm1 hm2
            rcases (by omega : m < i ∨ m = i) with h | h
            · exact p2 m hm1 h
            · subst h
              rw [hs2, hci, hseii, ctrlStep_keep _ _ hgap]

/-- Claim C5: (a) every commanded advance lies at the end of a stretch of ticks on
which the end condition (`total > 0 ∧ elapsed ≥ total ∧ ¬paused`) held
continuously since the stretch's first tick (the tick that started the end
timer, being the first after a reset), and strictly more than 700 ms of tick
time separate the advance from that first tick — so no advance ever comes
strictly before the 700 ms debounce; and (b) if the condition holds
continuously from a stretch start `j` through the first tick `i` whose clock
exceeds the 700 ms window, exactly one advance is commanded in `[j, i]` —
at `i`, none earlier — and the end-observation state resets to `None`. -/
theorem c5_debounce (env : FsEnv) (a0 : App) (xs : List TickIn) :
    (∀ i, i < xs.length → (tickRec env a0 xs i).adv = true →
      ∃ j, j ≤ i ∧
        (j = 0 ∨ (tickRec env a0 xs (j - 1)).cond = false ∨
          (tickRec env a0 xs (j - 1)).adv = true) ∧
        (∀ m, j ≤ m → m ≤ i → (tickRec env a0 xs m).cond = true) ∧
        debounceNs < (tickRec env a0 xs i).now - (tickRec env a0 xs j).now) ∧
    (∀ j i, j ≤ i → i < xs.length →
      (j = 0 ∨ (tickRec env a0 xs (j - 1)).cond = false ∨
        (tickRec env a0 xs (j - 1)).adv = true) →
      (∀ m, j ≤ m → m ≤ i → (tickRec env a0 xs m).cond = true) →
      (∀ m, j ≤ m → m < i →
        (tickRec env a0 xs m).now - (tickRec env a0 xs j).now ≤ debounceNs) →
      debounceNs < (tickRec env a0 xs i).now - (tickRec env a0 xs j).now →
      (tickRec env a0 xs i).adv = true ∧
      (∀ m, j ≤ m → m < i → (tickRec env a0 xs m).adv = false) ∧
      seiAfter env a0 xs (i + 1) = none) := by
  constructor
  · intro i hi hadv
    obtain ⟨hs1, hs2⟩ := sei_step env a0 xs i hi
    rw [hs2] at hadv
    obtain ⟨hc, t, hsei, hd, _⟩ := ctrlStep_fire_inv _ _ _ hadv
    obtain ⟨j, hj1, hj2, hj3, _, hj5⟩ := sei_inv env a0 xs i (by omega) t hsei
    refine ⟨j, by omega, hj5, ?_, ?_⟩
    · intro m hm1 hm2
      rcases (by omega : m < i ∨ m = i) with h | h
      · exact (hj3 m hm1 h).1
      · subst h
        exact hc
    · rw [hj2]
      exact hd
  · intro j i hji hi hstart hconds hgaps hfire
    have hjnone : seiAfter env a0 xs j = none := by
      cases j with
      | zero => exact sei_zero env a0 xs
      | succ k =>
          obtain ⟨hk1, hk2⟩ := sei_step env a0 xs k (by omega)
          rcases hstart with h | h | h
          · cases h
          · simp only [Nat.add_sub_cancel] at h
            rw [hk1, h, ctrlStep_false]
          · simp only [Nat.add_sub_cancel] at h
            rw [hk2] at h
            obtain ⟨_, t, _, _, hnone⟩ := ctrlStep_fire_inv _ _ _ h
            rw [hk1, hnone]
    have hji' : j < i := by
      rcases (by omega : j < i ∨ j = i) with h | h
      · exact h
      · subst h
        omega
    have hcj : (tickRec env a0 xs j).cond = true := hconds j (Nat.le_refl j) (by omega)
    obtain ⟨p1, p2⟩ := sei_progress env a0 xs j hjnone hcj i (by omega) (by omega)
      (fun m hm1 hm2 => hconds m hm1 (by omega)) hgaps
    have hseii : seiAfter env a0 xs i = some (tickRec env a0 xs j).now := p1 hji'
    obtain ⟨hs1, hs2⟩ := sei_step env a0 xs i hi
    have hci : (tickRec env a0 xs i).cond = true := hconds i (by omega) (Nat.le_refl i)
    refine ⟨?_, p2, ?_⟩
    · rw [hs2, hci, hseii, ctrlStep_fire _ _ hfire]
    · rw [hs1, hci, hseii, ctrlStep_fire _ _ hfire]

theorem c5_debounce_witness :
    (tickRec fsEmpty app0W xsW 2).adv = true ∧ seiAfter fsEmpty app0W xsW 3 = none := by
  have h := (c5_debounce fsEmpty app0W xsW).2 0 2 (by decide) (by decide) (Or.inl rfl)
    (by
      intro m _ hm
      interval_cases m <;> decide)
    (by
      intro m _ hm
      interval_cases m <;> decide)
    (by decide)
  exact ⟨h.1, h.2.2⟩

/-! C10 -/

theorem poll_songs (samples : List (Nat × Nat)) : ∀ (a : App),
    (poll_progress samples a).songs_played = a.songs_played := by
  induction samples with
  | nil =>
      intro a
      rfl
  | cons s rest ih =>
      intro a
      exact (ih _).trans rfl

theorem next_songs (a : App) : (App.next a).songs_played = a.songs_played := by
  unfold App.next
  split <;> rfl

theorem previous_songs (a : App) : (App.previous a).songs_played = a.songs_played := by
  unfold App.previous
  split
  · rfl
  · split <;> rfl

theorem pause_songs (a : App) (p : PState) :
    ((a.pause p).1).songs_played = a.songs_played := by
  unfold App.pause
  dsimp only
  repeat' split
  all_goals rfl

theorem open_selected_songs (env : FsEnv) (a : App) :
    (open_selected env a).1.songs_played = a.songs_played ∨
    (open_selected env a).1.songs_played = 0 := by
  unfold open_selected
  dsimp only
  repeat' split
  all_goals first
    | exact Or.inl rfl
    | exact Or.inr rfl

theorem select_songs (env : FsEnv) (a : App) :
    (select env a).songs_played = a.songs_played ∨ (select env a).songs_played = 0 := by
  unfold select
  dsimp only
  split
  · exact open_selected_songs env a
  · exact open_selected_songs env a

theorem next_mp3_songs (a : App) : (next_mp3 a).1.songs_played = a.songs_played := by
  unfold next_mp3
  dsimp only
  split <;> rfl

theorem advance_songs (env : FsEnv) (a : App) :
    (advance_action env a).songs_played = a.songs_played ∨
    (advance_action env a).songs_played = 0 := by
  unfold advance_action
  dsimp only
  split
  · rcases select_songs env (next_mp3 a).1 with h | h
    · exact Or.inl (h.trans (next_mp3_songs a))
    · exact Or.inr h
  · exact Or.inl (next_mp3_songs a)

/-- Claim C10: `songs_played` starts at `0` in `App::new_at_dir` and no operation
the application ever performs on the `App` (progress drains, navigation,
selection, pause, auto-advance) changes it, so it is `0` after any sequence
of operations. -/
theorem c10_songs_played_constant (dir listed : List String) (ops : List AppOp) :
    (ops.foldl applyOp (new_at_dir dir listed)).songs_played = 0 := by
  have hstep : ∀ (op : AppOp) (a : App), a.songs_played = 0 →
      (applyOp a op).songs_played = 0 := by
    intro op a h
    cases op with
    | pollOp samples =>
        show (poll_progress samples a).songs_played = 0
        rw [poll_songs]
        exact h
    | nextOp =>
        show (App.next a).songs_played = 0
        rw [next_songs]
        exact h
    | prevOp =>
        show (App.previous a).songs_played = 0
        rw [previous_songs]
        exact h
    | selectOp env =>
        show (select env a).songs_played = 0
        rcases select_songs env a with hh | hh
        · rw [hh]
          exact h
        · exact hh
    | pauseOp p =>
        show ((a.pause p).1).songs_played = 0
        rw [pause_songs]
        exact h
    | advanceOp env =>
        show (advance_action env a).songs_played = 0
        rcases advance_songs env a with hh | hh
        · rw [hh]
          exact h
        · exact hh
  have hfold : ∀ (l : List AppOp) (a : App), a.songs_played = 0 →
      (l.foldl applyOp a).songs_played = 0 := by
    intro l
    induction l with
    | nil =>
        intro a h
        exact h
    | cons op rest ih =>
        intro a h
        exact ih _ (hstep op a h)
  exact hfold ops _ rfl

end Empitrio
